import Mathlib

/-!
Verification of the packrat chunk-tracking core.

This file gives a shallow embedding, in Lean, of the chunk persistence and
viewer logic of the repository (src/src/storage/mod.rs and
src/src/viewer/mod.rs), and proves or refutes the frozen claims about it.

Modelling conventions:
* Rust `String` / `PathBuf` values are `List Char` (paths are compared by
  plain equality in the source, so the string view is faithful).
* Rust `usize` / `u64` are `Nat`; no arithmetic in the modelled code can
  overflow a 64-bit machine word on the inputs the code itself admits, and
  the one place the source casts through `isize` is modelled with `Int`
  exactly as written.
* `f64` percentages are modelled as exact rationals `Rat`.  The operations
  the source performs (division by a positive integer, multiplication by
  100) are monotone under IEEE-754 rounding, so the order-shaped claims
  transfer.
* The CSV layer (the `csv` crate configured with `QuoteStyle::Always` and
  `double_quote(true)`) is modelled for the always-quoted dialect the
  writer emits: every field written as `"..."` with inner quotes doubled,
  fields separated by `,`, records terminated by `\n`.  The header record
  the crate emits and skips symmetrically carries no chunk data and is
  omitted.
* File-system effects are made explicit: a storage value carries the byte
  contents of its backing file, and directory scans receive the list of
  file names as an argument.
-/

/-- Quote-escape the body of one CSV field: every `"` becomes `""`
(`double_quote(true)` in the writer configuration). -/
def escapeChars : List Char → List Char
  | [] => []
  | c :: cs => if c = '"' then '"' :: '"' :: escapeChars cs else c :: escapeChars cs

/-- One CSV field as written with `QuoteStyle::Always`: the body, escaped,
wrapped in quotes. -/
def writeField (s : List Char) : List Char := '"' :: (escapeChars s ++ ['"'])

/-- The tail of a written record after its leading quote: field bodies with
closing quotes, separated by `,"`. -/
def recordTail : List (List Char) → List Char
  | [] => []
  | [f] => escapeChars f ++ ['"']
  | f :: fs => escapeChars f ++ '"' :: ',' :: '"' :: recordTail fs

/-- One full CSV record: comma-separated always-quoted fields plus the `\n`
record terminator the `csv` writer emits. -/
def writeRecord (fields : List (List Char)) : List Char :=
  match fields with
  | [] => ['\n']
  | _ => '"' :: recordTail fields ++ ['\n']

/-- Serialize a sequence of records, as `ChunkStorage::save` does by writing
the records one after another. -/
def writeRecords (records : List (List (List Char))) : List Char :=
  (records.map writeRecord).flatten

/-- The CSV reader for the always-quoted dialect, as a state machine over the
input characters.  `inField = true` means the head of the input is inside a
quoted field whose chars read so far are `acc`; `fs` are the completed fields
of the current record and `rs` the completed records.  Mirrors the record
reader used by `ChunkStorage::load_chunks` (`double_quote(true)`): `""`
inside a field is a literal quote, a closing quote must be followed by `,`
and a new opening quote, by the record terminator, or by the end of input.
Returns `none` on any malformed input. -/
def parseCSV : List Char → Bool → List Char → List (List Char) →
    List (List (List Char)) → Option (List (List (List Char)))
  | [], inField, _, _, rs => if inField then none else some rs
  | c :: cs, false, _, _, rs =>
      if c = '"' then parseCSV cs true [] [] rs else none
  | c :: cs, true, acc, fs, rs =>
      if c = '"' then
        match cs with
        | [] => some (rs ++ [fs ++ [acc]])
        | d :: cs2 =>
          if d = '"' then parseCSV cs2 true (acc ++ ['"']) fs rs
          else if d = '\n' then parseCSV cs2 false [] [] (rs ++ [fs ++ [acc]])
          else if d = ',' then
            match cs2 with
            | [] => none
            | e :: cs3 =>
              if e = '"' then parseCSV cs3 true [] (fs ++ [acc]) rs else none
          else none
      else parseCSV cs true (acc ++ [c]) fs rs

/-- Parse a whole backing file into its records. -/
def parseRecords (cs : List Char) : Option (List (List (List Char))) :=
  parseCSV cs false [] [] []

/-- Decimal digit character, for digit values `0`–`9` (the `Display`
rendering of `usize`/`u64` that serde feeds to the CSV writer). -/
def digitChar : Nat → Char
  | 0 => '0'
  | 1 => '1'
  | 2 => '2'
  | 3 => '3'
  | 4 => '4'
  | 5 => '5'
  | 6 => '6'
  | 7 => '7'
  | 8 => '8'
  | _ => '9'

/-- Decimal digits of `n`, most significant first, with explicit fuel (any
fuel above `n` is enough; `natToChars` supplies it). -/
def natToCharsAux : Nat → Nat → List Char
  | 0, _ => []
  | fuel + 1, n =>
    if n < 10 then [digitChar n]
    else natToCharsAux fuel (n / 10) ++ [digitChar (n % 10)]

/-- Decimal rendering of an unsigned integer field. -/
def natToChars (n : Nat) : List Char := natToCharsAux (n + 1) n

/-- Digit value of a character, `none` for non-digits. -/
def charDigit (c : Char) : Option Nat :=
  if c = '0' then some 0
  else if c = '1' then some 1
  else if c = '2' then some 2
  else if c = '3' then some 3
  else if c = '4' then some 4
  else if c = '5' then some 5
  else if c = '6' then some 6
  else if c = '7' then some 7
  else if c = '8' then some 8
  else if c = '9' then some 9
  else none

/-- Left-to-right accumulation of decimal digits. -/
def parseNatAux : List Char → Nat → Option Nat
  | [], acc => some acc
  | c :: cs, acc =>
    match charDigit c with
    | none => none
    | some d => parseNatAux cs (acc * 10 + d)

/-- Parse an unsigned-integer field (the digits-only language the writer
emits; a non-digit anywhere, or an empty field, fails the record). -/
def parseNatChars : List Char → Option Nat
  | [] => none
  | c :: cs => parseNatAux (c :: cs) 0

/-- The serde rendering of a `bool` field. -/
def boolChars (b : Bool) : List Char :=
  if b then ['t', 'r', 'u', 'e'] else ['f', 'a', 'l', 's', 'e']

/-- Parse a `bool` field: exactly `true` or `false`. -/
def parseBoolChars (cs : List Char) : Option Bool :=
  if cs = ['t', 'r', 'u', 'e'] then some true
  else if cs = ['f', 'a', 'l', 's', 'e'] then some false
  else none

/-- Rust `labels.join("|")` from the `Serialize` impl for `Chunk`. -/
def joinBar : List (List Char) → List Char
  | [] => []
  | [l] => l
  | l :: ls => l ++ '|' :: joinBar ls

/-- Rust `str::split('|')`: the pieces of a string between bar separators (on an
empty string this is one empty piece, as in Rust). -/
def splitBar : List Char → List (List Char)
  | [] => [[]]
  | c :: cs =>
    if c = '|' then [] :: splitBar cs
    else
      match splitBar cs with
      | [] => [[c]]
      | l :: ls => (c :: l) :: ls

/-- The labels field on read, from the `Deserialize` impl for `Chunk`: an
empty string is the empty label list, anything else is split on bars. -/
def parseLabels : List Char → List (List Char)
  | [] => []
  | c :: cs => splitBar (c :: cs)

/-- A text chunk with metadata (`Chunk` in src/src/storage/mod.rs).  Strings
and the path are `List Char`; `usize`/`u64` are `Nat`. -/
structure Chunk where
  id : List Char
  file_path : List Char
  start_line : Nat
  end_line : Nat
  content : List Char
  timestamp : Nat
  edited : Bool
  labels : List (List Char)
deriving DecidableEq

/-- The eight serialized fields of a chunk, in the order of the `Serialize`
impl: id, file_path, start_line, end_line, content, timestamp, edited,
bar-joined labels. -/
def chunkToFields (c : Chunk) : List (List Char) :=
  [c.id, c.file_path, natToChars c.start_line, natToChars c.end_line,
   c.content, natToChars c.timestamp, boolChars c.edited, joinBar c.labels]

/-- The `Deserialize` impl for `Chunk`: exactly eight fields, numeric and
boolean fields must parse, labels are bar-split (empty string means no
labels). -/
def fieldsToChunk (fields : List (List Char)) : Option Chunk :=
  match fields with
  | [i, fp, sl, el, co, ts, ed, lb] =>
    match parseNatChars sl, parseNatChars el, parseNatChars ts, parseBoolChars ed with
    | some s, some e, some t, some b =>
      some ⟨i, fp, s, e, co, t, b, parseLabels lb⟩
    | _, _, _, _ => none
  | _ => none

/-- The backing-file contents produced by `ChunkStorage::save`: every chunk
serialized in sequence. -/
def writeAll (chunks : List Chunk) : List Char :=
  writeRecords (chunks.map chunkToFields)

/-- The record loop of `ChunkStorage::load_chunks`: decode each record in
order, propagating the first failure (`let chunk: Chunk = result?`). -/
def decodeRecords : List (List (List Char)) → Option (List Chunk)
  | [] => some []
  | r :: rs =>
    match fieldsToChunk r with
    | none => none
    | some c =>
      match decodeRecords rs with
      | none => none
      | some cs => some (c :: cs)

/-- Rust `ChunkStorage::load_chunks`: parse every record of the file and decode
each into a chunk; any failure fails the whole load. -/
def loadChunks (cs : List Char) : Option (List Chunk) :=
  match parseRecords cs with
  | none => none
  | some recs => decodeRecords recs

/-- Rust `ChunkStorage` (src/src/storage/mod.rs): the CSV path, the in-memory
chunk sequence, and — made explicit here — the byte contents of the backing
file. -/
structure ChunkStorage where
  csv_path : List Char
  chunks : List Chunk
  disk : List Char
deriving DecidableEq

/-- Rust `ChunkStorage::save`: rewrite the entire backing file from the full
in-memory sequence (modelled on the success path of the file write). -/
def ChunkStorage.save (st : ChunkStorage) : ChunkStorage :=
  { st with disk := writeAll st.chunks }

/-- Rust `ChunkStorage::add_chunk`: push the chunk, then save. -/
def ChunkStorage.add_chunk (st : ChunkStorage) (c : Chunk) : ChunkStorage :=
  ChunkStorage.save { st with chunks := st.chunks ++ [c] }

/-- Rust `ChunkStorage::new`: when the backing file exists its contents are
loaded (failure produces no storage at all, modelled as `none`); otherwise
the store starts empty. -/
def ChunkStorage.new (csv_path : List Char) (fileExists : Bool)
    (contents : List Char) : Option ChunkStorage :=
  if fileExists then
    (loadChunks contents).map (fun l => ⟨csv_path, l, contents⟩)
  else
    some ⟨csv_path, [], []⟩

/-- Rust `ChunkStorage::get_chunks_for_file`: linear filter by exact path
equality. -/
def ChunkStorage.get_chunks_for_file (st : ChunkStorage) (path : List Char) :
    List Chunk :=
  st.chunks.filter (fun c => c.file_path == path)

/-- Rust `ChunkStorage::get_chunked_ranges`: the `(start_line, end_line)` pairs
of the chunks of one file. -/
def ChunkStorage.get_chunked_ranges (st : ChunkStorage) (path : List Char) :
    List (Nat × Nat) :=
  (st.chunks.filter (fun c => c.file_path == path)).map
    (fun c => (c.start_line, c.end_line))

/-- The marking loop `for i in start..=lim { chunked_lines[i] = true; }`
rendered pointwise: position `i + idx` of the array is set when it lies in
`[start, lim]`. -/
def markFrom (start lim : Nat) : Nat → List Bool → List Bool
  | _, [] => []
  | i, b :: rest =>
    (b || (decide (start ≤ i) && decide (i ≤ lim))) :: markFrom start lim (i + 1) rest

/-- Mark the lines of one chunk: indices `start_line` through
`min end_line (total_lines - 1)`, exactly as the source loop bounds them. -/
def markChunk (total : Nat) (arr : List Bool) (c : Chunk) : List Bool :=
  markFrom c.start_line (min c.end_line (total - 1)) 0 arr

/-- Rust `ChunkStorage::calculate_chunking_percentage`, with `f64` arithmetic
modelled as exact rationals: zero when `total_lines` is zero or the file has
no chunks, otherwise the marked-line count over `total_lines`, times 100. -/
def ChunkStorage.calculate_chunking_percentage (st : ChunkStorage)
    (path : List Char) (total_lines : Nat) : Rat :=
  if total_lines = 0 then 0
  else if (st.chunks.filter (fun c => c.file_path == path)).isEmpty then 0
  else
    ((List.countP id
        (List.foldl (markChunk total_lines) (List.replicate total_lines false)
          (st.chunks.filter (fun c => c.file_path == path))) : Rat) /
      (total_lines : Rat)) * 100

/-- Modelled from the claim wording of C4 (and spec §4.3): identical to
`calculate_chunking_percentage` except that each chunk is taken to mark the
indices `[start-1, min(end-1, total_lines-1)]`, i.e. the stored bounds are
treated as 1-indexed.  Kept for comparison against the source function. -/
def claimedChunkingPercentage (st : ChunkStorage) (path : List Char)
    (total_lines : Nat) : Rat :=
  if total_lines = 0 then 0
  else if (st.chunks.filter (fun c => c.file_path == path)).isEmpty then 0
  else
    ((List.countP id
        (List.foldl
          (fun arr c =>
            markFrom (c.start_line - 1) (min (c.end_line - 1) (total_lines - 1)) 0 arr)
          (List.replicate total_lines false)
          (st.chunks.filter (fun c => c.file_path == path))) : Rat) /
      (total_lines : Rat)) * 100

/-- Whether some chunk of the list marks line `i` (with the loop bounds of the source for a file of `total` lines). -/
def coveredB (chunks : List Chunk) (total : Nat) (i : Nat) : Bool :=
  chunks.any (fun c => decide (c.start_line ≤ i) && decide (i ≤ min c.end_line (total - 1)))

/-- The number of distinct covered lines of a file: the size of the union of
the marked ranges of the chunks. -/
def coveredCount (st : ChunkStorage) (path : List Char) (total : Nat) : Nat :=
  (List.range total).countP (coveredB (st.chunks.filter (fun c => c.file_path == path)) total)

/-- Rust `str::split('/')` over a path, used to model the component-wise
`Path::starts_with` / `strip_prefix` pair. -/
def splitSlash : List Char → List (List Char)
  | [] => [[]]
  | c :: cs =>
    if c = '/' then [] :: splitSlash cs
    else
      match splitSlash cs with
      | [] => [[c]]
      | l :: ls => (c :: l) :: ls

/-- Join path components back with `/`. -/
def joinSlash : List (List Char) → List Char
  | [] => []
  | [l] => l
  | l :: ls => l ++ '/' :: joinSlash ls

/-- The `starts_with`/`strip_prefix` fallback pattern used by the viewer and
by `generate_chunk_filename`: if the root is a component-wise prefix of the
path, the remainder relative to the root, otherwise the path unmodified. -/
def relativeTo (file root : List Char) : List Char :=
  let fcs := splitSlash file
  let rcs := splitSlash root
  if rcs.isPrefixOf fcs then joinSlash (fcs.drop rcs.length) else file

/-- Characters that `generate_chunk_filename` replaces with underscores:
path separators and `. - : +` and space. -/
def sanitizeChar (c : Char) : Char :=
  if c = '/' ∨ c = '\\' ∨ c = '.' ∨ c = ' ' ∨ c = '-' ∨ c = ':' ∨ c = '+' then '_' else c

/-- Sanitized file stem: special characters replaced, leading underscores
trimmed, and `unnamed_file` when nothing is left. -/
def sanitizePath (rel : List Char) : List Char :=
  let s := (rel.map sanitizeChar).dropWhile (fun c => c = '_')
  if s.isEmpty then ['u', 'n', 'n', 'a', 'm', 'e', 'd', '_', 'f', 'i', 'l', 'e'] else s

/-- Rust `utils::generate_chunk_filename`: sanitized relative path, underscore,
1-indexed line range, `.txt`. -/
def generate_chunk_filename (file root : List Char) (start_line end_line : Nat) :
    List Char :=
  sanitizePath (relativeTo file root) ++
    '_' :: (natToChars (start_line + 1) ++ '-' :: (natToChars (end_line + 1) ++ ['.', 't', 'x', 't']))

/-- Rust `Path::join` for a relative file name. -/
def pathJoin (dir f : List Char) : List Char := dir ++ '/' :: f

/-- The error outcomes of `Viewer::save_selection_as_chunk` (the `anyhow!`
messages `No text selected`, `Invalid selection range`, `No file opened`). -/
inductive SaveError where
  | noSelection
  | invalidRange
  | noFileOpened
deriving DecidableEq

/-- The text viewer state (src/src/viewer/mod.rs).  The three token-count
fields (`total_tokens`, `tokens_per_line` and their recomputation) are
display data produced by the external BPE tokenizer; no modelled operation branches on them and they are omitted. -/
structure Viewer where
  file_path : Option (List Char)
  content : List (List Char)
  original_content : List (List Char)
  scroll_position : Nat
  selection_mode : Bool
  selection_start : Option Nat
  cursor_position : Nat
  chunked_ranges : List (Nat × Nat)
  has_edited_content : Bool
  max_tokens_per_chunk : Nat
deriving DecidableEq

/-- Rust `Viewer::new`. -/
def Viewer.new : Viewer :=
  ⟨none, [], [], 0, false, none, 0, [], false, 8192⟩

/-- Rust `Viewer::open_file` on the success path, with the lines read from disk
passed in explicitly. -/
def Viewer.open_file (v : Viewer) (path : List Char) (lines : List (List Char)) :
    Viewer :=
  { v with
    file_path := some path
    content := lines
    original_content := lines
    scroll_position := 0
    cursor_position := 0
    selection_mode := false
    selection_start := none
    chunked_ranges := []
    has_edited_content := false }

/-- Rust `Viewer::toggle_selection_mode`: only acts when the content is nonempty;
entering selection mode anchors at the cursor, leaving it clears the
anchor. -/
def Viewer.toggle_selection_mode (v : Viewer) : Viewer :=
  if v.content.isEmpty then v
  else if !v.selection_mode then
    { v with selection_mode := true, selection_start := some v.cursor_position }
  else
    { v with selection_mode := false, selection_start := none }

/-- Rust `Viewer::selection_range`: the normalized anchor–cursor pair, `none`
without an anchor. -/
def Viewer.selection_range (v : Viewer) : Option (Nat × Nat) :=
  v.selection_start.map (fun start =>
    if start ≤ v.cursor_position then (start, v.cursor_position)
    else (v.cursor_position, start))

/-- Rust `Viewer::clear_selection`. -/
def Viewer.clear_selection (v : Viewer) : Viewer :=
  { v with selection_mode := false, selection_start := none }

/-- Rust `Viewer::cursor_up` (saturating, scroll follows the cursor). -/
def Viewer.cursor_up (v : Viewer) : Viewer :=
  let cp := v.cursor_position - 1
  let sp := if cp < v.scroll_position then cp else v.scroll_position
  { v with cursor_position := cp, scroll_position := sp }

/-- Rust `Viewer::cursor_down` (clamped to the last line; a 20-line window is
assumed for scroll-follow). -/
def Viewer.cursor_down (v : Viewer) : Viewer :=
  if v.content.isEmpty then v
  else
    let cp := min (v.cursor_position + 1) (v.content.length - 1)
    let sp :=
      if cp ≥ v.scroll_position + 20 then min (cp - 19) (v.content.length - 1)
      else v.scroll_position
    { v with cursor_position := cp, scroll_position := sp }

/-- Rust `Viewer::scroll_up`. -/
def Viewer.scroll_up (v : Viewer) : Viewer :=
  let sp := v.scroll_position - 1
  let cp :=
    if v.cursor_position > sp + 20 then v.cursor_position - 1
    else v.cursor_position
  { v with scroll_position := sp, cursor_position := cp }

/-- Rust `Viewer::scroll_down`. -/
def Viewer.scroll_down (v : Viewer) : Viewer :=
  if v.content.isEmpty then v
  else
    let sp := min (v.scroll_position + 1) (v.content.length - 1)
    let cp := if v.cursor_position < sp then sp else v.cursor_position
    { v with scroll_position := sp, cursor_position := cp }

/-- Rust `Viewer::scroll_page_up`. -/
def Viewer.scroll_page_up (v : Viewer) (page_size : Nat) : Viewer :=
  let old := v.scroll_position
  let sp := v.scroll_position - page_size
  let delta := old - sp
  let cp := max (v.cursor_position - delta) sp
  { v with scroll_position := sp, cursor_position := cp }

/-- Rust `Viewer::scroll_page_down`. -/
def Viewer.scroll_page_down (v : Viewer) (page_size : Nat) : Viewer :=
  if v.content.isEmpty then v
  else
    let old := v.scroll_position
    let sp := min (v.scroll_position + page_size) (v.content.length - 1)
    let delta := sp - old
    let cp :=
      if delta > 0 then min (v.cursor_position + delta) (v.content.length - 1)
      else v.cursor_position
    { v with scroll_position := sp, cursor_position := cp }

/-- Rust `Viewer::scroll_to_top`. -/
def Viewer.scroll_to_top (v : Viewer) : Viewer :=
  { v with scroll_position := 0, cursor_position := 0 }

/-- Rust `Viewer::scroll_to_bottom`. -/
def Viewer.scroll_to_bottom (v : Viewer) : Viewer :=
  if v.content.isEmpty then v
  else
    { v with
      scroll_position := v.content.length - 1
      cursor_position := v.content.length - 1 }

/-- Rust `Viewer::scroll_to_position`. -/
def Viewer.scroll_to_position (v : Viewer) (position : Nat) : Viewer :=
  if v.content.isEmpty then v
  else
    let sp := min position (v.content.length - 1)
    let cp :=
      if v.cursor_position < sp then sp
      else if v.cursor_position > sp + 20 then sp + 20
      else v.cursor_position
    { v with scroll_position := sp, cursor_position := cp }

/-- Rust `Viewer::check_chunk_overlap`: true when the given range shares a line
with any recorded chunked range. -/
def Viewer.check_chunk_overlap (v : Viewer) (start_line end_line : Nat) : Bool :=
  v.chunked_ranges.any (fun r =>
    !(decide (end_line < r.1) || decide (start_line > r.2)))

/-- Rust `Viewer::is_line_chunked`. -/
def Viewer.is_line_chunked (v : Viewer) (line_number : Nat) : Bool :=
  v.chunked_ranges.any (fun r =>
    decide (r.1 ≤ line_number) && decide (line_number ≤ r.2))

/-- Rust `Viewer::save_selection_as_chunk` (src/src/viewer/mod.rs lines 337-389),
with the file-system writes modelled on their success path.  The source
computes the overlap flag (`check_chunk_overlap`) and discards it; overlap
never affects the outcome.  Order of checks as in the source: no selection,
selection out of bounds, no file open; then the chunk path is generated, the
selected lines are written out, and the range is appended to
`chunked_ranges`. -/
def Viewer.save_selection_as_chunk (v : Viewer) (chunk_dir root_dir : List Char) :
    Except SaveError (List Char × Viewer) :=
  match Viewer.selection_range v with
  | none => .error .noSelection
  | some r =>
    if r.1 ≥ v.content.length ∨ r.2 ≥ v.content.length then .error .invalidRange
    else
      match v.file_path with
      | none => .error .noFileOpened
      | some fp =>
        let chunk_path := pathJoin chunk_dir (generate_chunk_filename fp root_dir r.1 r.2)
        .ok (chunk_path, { v with chunked_ranges := v.chunked_ranges ++ [r] })

/-- Rust `Viewer::update_selected_content` (src/src/viewer/mod.rs lines 518-577).
Returns `some (flag, v')` for the `bool` the source returns plus the updated
state; `none` models the panic when the selection end is out of bounds for
`original_content` (the source indexes `original_content[start..=end]` after
validating only against `content`).  The `isize` casts of the range shift
are modelled with `Int` exactly as written; `Int.toNat` never clamps here
because a shifted start is at least the edit start. -/
def Viewer.update_selected_content (v : Viewer) (edited_content : List (List Char)) :
    Option (Bool × Viewer) :=
  match Viewer.selection_range v with
  | none => some (false, v)
  | some r =>
    let start := r.1
    let stop := r.2
    if start ≥ v.content.length ∨ stop ≥ v.content.length then some (false, v)
    else if stop ≥ v.original_content.length then none
    else
      let original_selection := (v.original_content.drop start).take (stop + 1 - start)
      let hec :=
        decide (original_selection.length ≠ edited_content.length) ||
          (original_selection.zip edited_content).any (fun p => decide (p.1 ≠ p.2))
      let range_len := stop - start + 1
      let replacement_len := edited_content.length
      let content2 := v.content.take start ++ edited_content ++ v.content.drop (stop + 1)
      let ranges2 :=
        if range_len ≠ replacement_len then
          let line_diff : Int := (replacement_len : Int) - (range_len : Int)
          (v.chunked_ranges.map (fun cr =>
            if cr.1 > stop then
              (((cr.1 : Int) + line_diff).toNat, ((cr.2 : Int) + line_diff).toNat)
            else if cr.2 ≥ start then (0, 0)
            else cr)).filter (fun cr => decide (cr ≠ (0, 0)))
        else v.chunked_ranges
      let cursor2 :=
        if v.cursor_position ≥ content2.length then content2.length - 1
        else v.cursor_position
      some (true,
        { v with
          content := content2
          chunked_ranges := ranges2
          has_edited_content := hec
          cursor_position := cursor2 })

/-- Rust `.txt` extension test for a directory entry name (a bare `.txt` has no
extension in `Path::extension` terms). -/
def isTxtName (name : List Char) : Bool :=
  ['.', 't', 'x', 't'].isSuffixOf name && decide (4 < name.length)

/-- Rust `str::split_once('-')`: the pieces before and after the first dash. -/
def splitOnceDash : List Char → Option (List Char × List Char)
  | [] => none
  | c :: cs =>
    if c = '-' then some ([], cs)
    else (splitOnceDash cs).map (fun p => (c :: p.1, p.2))

/-- Range extraction from one chunk filename, as in
`Viewer::load_chunked_ranges`: strip `prefix_`, strip `.txt`, split on the
first dash, parse both numbers, and convert 1-indexed to 0-indexed with
saturating subtraction. -/
def parseRangeFromName (pfx name : List Char) : Option (Nat × Nat) :=
  if (pfx ++ ['_']).isPrefixOf name then
    let rp := name.drop (pfx.length + 1)
    if ['.', 't', 'x', 't'].isSuffixOf rp then
      match splitOnceDash (rp.take (rp.length - 4)) with
      | none => none
      | some (s1, s2) =>
        match parseNatChars s1, parseNatChars s2 with
        | some a, some b => some (a - 1, b - 1)
        | _, _ => none
    else none
  else none

/-- Rust `Viewer::load_chunked_ranges`, with the directory scan made explicit:
`dirExists` says whether the chunk directory exists and `entries` lists the
file names it contains, in scan order.  Without an open file nothing
happens; otherwise the recorded ranges are rebuilt from the matching
filenames (cleared first, so a missing directory leaves them empty). -/
def Viewer.load_chunked_ranges (v : Viewer) (dirExists : Bool)
    (entries : List (List Char)) (root_dir : List Char) : Viewer :=
  match v.file_path with
  | none => v
  | some fp =>
    if !dirExists then { v with chunked_ranges := [] }
    else
      let pfx := sanitizePath (relativeTo fp root_dir)
      { v with
        chunked_ranges :=
          entries.filterMap (fun name =>
            if isTxtName name then parseRangeFromName pfx name else none) }

/-- The viewer states reachable through the public operations listed in
claim C10 (file reads, directory scans and edited lines enter as
parameters; error paths leave the state unchanged and are subsumed by
reflexivity of each step). -/
inductive ReachableViewer : Viewer → Prop where
  | new : ReachableViewer Viewer.new
  | open_file (v : Viewer) (p : List Char) (lines : List (List Char)) :
      ReachableViewer v → ReachableViewer (Viewer.open_file v p lines)
  | toggle (v : Viewer) :
      ReachableViewer v → ReachableViewer (Viewer.toggle_selection_mode v)
  | clear (v : Viewer) :
      ReachableViewer v → ReachableViewer (Viewer.clear_selection v)
  | cursor_up (v : Viewer) :
      ReachableViewer v → ReachableViewer (Viewer.cursor_up v)
  | cursor_down (v : Viewer) :
      ReachableViewer v → ReachableViewer (Viewer.cursor_down v)
  | scroll_up (v : Viewer) :
      ReachableViewer v → ReachableViewer (Viewer.scroll_up v)
  | scroll_down (v : Viewer) :
      ReachableViewer v → ReachableViewer (Viewer.scroll_down v)
  | page_up (v : Viewer) (n : Nat) :
      ReachableViewer v → ReachableViewer (Viewer.scroll_page_up v n)
  | page_down (v : Viewer) (n : Nat) :
      ReachableViewer v → ReachableViewer (Viewer.scroll_page_down v n)
  | to_top (v : Viewer) :
      ReachableViewer v → ReachableViewer (Viewer.scroll_to_top v)
  | to_bottom (v : Viewer) :
      ReachableViewer v → ReachableViewer (Viewer.scroll_to_bottom v)
  | to_position (v : Viewer) (n : Nat) :
      ReachableViewer v → ReachableViewer (Viewer.scroll_to_position v n)
  | save (v : Viewer) (cd rd p : List Char) (v2 : Viewer) :
      ReachableViewer v →
      Viewer.save_selection_as_chunk v cd rd = .ok (p, v2) → ReachableViewer v2
  | update (v : Viewer) (ed : List (List Char)) (b : Bool) (v2 : Viewer) :
      ReachableViewer v →
      Viewer.update_selected_content v ed = some (b, v2) → ReachableViewer v2
  | load_ranges (v : Viewer) (ex : Bool) (ents : List (List Char)) (rd : List Char) :
      ReachableViewer v → ReachableViewer (Viewer.load_chunked_ranges v ex ents rd)

/-- The labels lists that survive the bar-join/bar-split serialization: not
the single empty label (its join is the empty string, which reads back as no
labels) and no label containing the bar separator. -/
def labelsGood (ls : List (List Char)) : Prop :=
  ls ≠ [[]] ∧ ∀ l ∈ ls, '|' ∉ l

instance decLabelsGood (ls : List (List Char)) : Decidable (labelsGood ls) :=
  inferInstanceAs (Decidable (ls ≠ [[]] ∧ ∀ l ∈ ls, '|' ∉ l))

/-- Lines of the file that the added chunk would mark but that no existing
chunk of the file marks: the most coverage can grow by. -/
def newUncovered (st : ChunkStorage) (path : List Char) (total : Nat)
    (c : Chunk) : Nat :=
  (List.range total).countP (fun i =>
    (decide (c.start_line ≤ i) && decide (i ≤ min c.end_line (total - 1))) &&
      !coveredB (st.chunks.filter (fun c2 => c2.file_path == path)) total i)

/-- A chunk whose content holds a newline, a quote and a comma, with two
labels. -/
def cRound : Chunk :=
  ⟨['i', 'd', '1'], ['d', 'i', 'r', '/', 'f', '.', 't', 'x', 't'], 1, 4,
   ['a', '\n', '"', ',', 'b'], 1700000000, true, [['a'], ['b', 'c']]⟩

/-- A chunk whose labels list is exactly one empty label. -/
def cBad1 : Chunk := ⟨['i', 'd', '2'], ['g'], 0, 0, [], 0, false, [[]]⟩

/-- What `cBad1` reads back as: the empty joined string deserializes to no
labels. -/
def cBad1RT : Chunk := { cBad1 with labels := [] }

/-- A chunk with a bar inside a label. -/
def cBad6 : Chunk := ⟨['i', 'd', '3'], ['h'], 2, 3, ['z'], 5, true, [['a', '|', 'b']]⟩

/-- What `cBad6` reads back as: the label is split at the bar. -/
def cBad6RT : Chunk := { cBad6 with labels := [['a'], ['b']] }

/-- A well-behaved chunk for the store round-trip witness. -/
def cWit6 : Chunk := ⟨['i', 'd', '4'], ['h'], 0, 1, ['w'], 7, false, [['u']]⟩

/-- An empty chunk store on a fresh backing file. -/
def stEmpty : ChunkStorage := ⟨['c', 'h', 'u', 'n', 'k', 's', '.', 'c', 's', 'v'], [], []⟩

/-- A chunk whose stored bounds are `(5,5)` for file `f`. -/
def cEdge : Chunk := ⟨['i', 'd', '5'], ['f'], 5, 5, [], 0, false, []⟩

/-- A store holding only `cEdge`. -/
def stC4 : ChunkStorage := ⟨['p'], [cEdge], []⟩

/-- A chunk covering stored bounds `(0,2)` of file `f`. -/
def cBase5 : Chunk := ⟨['i', 'd', '6'], ['f'], 0, 2, [], 0, false, []⟩

/-- A store holding only `cBase5`. -/
def stC5 : ChunkStorage := ⟨['p'], [cBase5], []⟩

/-- A chunk covering stored bounds `(1,3)` of file `f`, overlapping
`cBase5`. -/
def cAdd5 : Chunk := ⟨['i', 'd', '7'], ['f'], 1, 3, [], 1, false, []⟩

/-- A record with eight fields whose `start_line` field is not numeric. -/
def badRecordFields : List (List Char) :=
  [['b'], ['f'], ['x'], ['0'], [], ['0'], ['f', 'a', 'l', 's', 'e'], []]

/-- A chunk that serializes and parses cleanly. -/
def c7good : Chunk := ⟨['i', 'd', '8'], ['k'], 3, 4, ['q'], 9, false, []⟩

/-- Backing-file contents holding one clean record followed by one record
whose `start_line` field cannot parse. -/
def c7contents : List Char := writeAll [c7good] ++ writeRecord badRecordFields

/-- Viewer with three lines, an active selection over lines 0–1, and one
recorded range `(2,2)` lying entirely after the selection. -/
def vC2 : Viewer :=
  ⟨some ['f'], [['a'], ['b'], ['c']], [['a'], ['b'], ['c']], 0, true, some 0, 1,
   [(2, 2)], false, 8192⟩

/-- Viewer with eight lines, an active selection on line 2, and recorded
ranges `(0,0)` (entirely before the selection) and `(5,7)` (after it). -/
def vC3 : Viewer :=
  ⟨some ['f'],
   [['a'], ['b'], ['c'], ['d'], ['e'], ['f'], ['g'], ['h']],
   [['a'], ['b'], ['c'], ['d'], ['e'], ['f'], ['g'], ['h']],
   0, true, some 2, 2, [(0, 0), (5, 7)], false, 8192⟩

/-- Viewer with two lines, an open file, an active in-bounds selection over
lines 0–1, and a recorded range overlapping that whole selection. -/
def vC8 : Viewer :=
  ⟨some ['f'], [['a'], ['b']], [['a'], ['b']], 0, true, some 0, 1,
   [(0, 1)], false, 8192⟩

/-- Viewer on a one-line file with selection mode off. -/
def vC9 : Viewer := Viewer.open_file Viewer.new ['f'] [['a']]

/-- Machine step: a doubled quote inside a field is a literal quote. -/
theorem parseCSV_quote_quote (xs : List Char) (acc : List Char)
    (fs : List (List Char)) (rs : List (List (List Char))) :
    parseCSV ('"' :: '"' :: xs) true acc fs rs =
      parseCSV xs true (acc ++ ['"']) fs rs := by
  rw [parseCSV.eq_def]
  simp

/-- Machine step: an ordinary character inside a field is accumulated. -/
theorem parseCSV_plain (c : Char) (hc : c ≠ '"') (xs : List Char)
    (acc : List Char) (fs : List (List Char)) (rs : List (List (List Char))) :
    parseCSV (c :: xs) true acc fs rs = parseCSV xs true (acc ++ [c]) fs rs := by
  rw [parseCSV.eq_def]
  simp [hc]

/-- Machine step: closing quote, separator, next opening quote — the field is
complete and a new field begins. -/
theorem parseCSV_next_field (xs : List Char) (acc : List Char)
    (fs : List (List Char)) (rs : List (List (List Char))) :
    parseCSV ('"' :: ',' :: '"' :: xs) true acc fs rs =
      parseCSV xs true [] (fs ++ [acc]) rs := by
  rw [parseCSV.eq_def]
  simp

/-- Machine step: closing quote then record terminator — the record is
complete. -/
theorem parseCSV_end_record (xs : List Char) (acc : List Char)
    (fs : List (List Char)) (rs : List (List (List Char))) :
    parseCSV ('"' :: '\n' :: xs) true acc fs rs =
      parseCSV xs false [] [] (rs ++ [fs ++ [acc]]) := by
  rw [parseCSV.eq_def]
  simp

/-- Machine step: between records, an opening quote starts a new record. -/
theorem parseCSV_open (xs : List Char) (acc : List Char)
    (fs : List (List Char)) (rs : List (List (List Char))) :
    parseCSV ('"' :: xs) false acc fs rs = parseCSV xs true [] [] rs := by
  rw [parseCSV.eq_def]
  simp

/-- Reading an escaped field body consumes it into the accumulator and leaves
the machine at the closing quote. -/
theorem parseCSV_escape (s : List Char) (rest : List Char) (acc : List Char)
    (fs : List (List Char)) (rs : List (List (List Char))) :
    parseCSV (escapeChars s ++ '"' :: rest) true acc fs rs =
      parseCSV ('"' :: rest) true (acc ++ s) fs rs := by
  induction s generalizing acc with
  | nil => simp [escapeChars]
  | cons c cs ih =>
    by_cases hc : c = '"'
    · subst hc
      have he : escapeChars ('"' :: cs) = '"' :: '"' :: escapeChars cs := by
        simp [escapeChars]
      rw [he, List.cons_append, List.cons_append, parseCSV_quote_quote, ih]
      simp
    · have he : escapeChars (c :: cs) = c :: escapeChars cs := by
        simp [escapeChars, hc]
      rw [he, List.cons_append, parseCSV_plain c hc, ih]
      simp

/-- Machine step: end of input between records yields the accumulated
records. -/
theorem parseCSV_nil (acc : List Char) (fs : List (List Char))
    (rs : List (List (List Char))) :
    parseCSV [] false acc fs rs = some rs := rfl

/-- recordTail on two or more fields: first field body, closing quote,
separator, opening quote, rest. -/
theorem recordTail_cons₂ (f g : List Char) (fs : List (List Char)) :
    recordTail (f :: g :: fs) =
      escapeChars f ++ '"' :: ',' :: '"' :: recordTail (g :: fs) := by
  simp [recordTail]

/-- Running the machine over the tail of a written record consumes the whole
record and appends its fields. -/
theorem parseCSV_record (fields : List (List Char)) (f : List Char)
    (rest : List Char) (acc : List Char) (fs : List (List Char))
    (rs : List (List (List Char))) :
    parseCSV (recordTail (f :: fields) ++ '\n' :: rest) true acc fs rs =
      parseCSV rest false [] [] (rs ++ [fs ++ (acc ++ f) :: fields]) := by
  induction fields generalizing f acc fs with
  | nil =>
    have h1 : recordTail [f] ++ '\n' :: rest =
        escapeChars f ++ '"' :: '\n' :: rest := by
      simp [recordTail]
    rw [h1, parseCSV_escape, parseCSV_end_record]
  | cons g gs ih =>
    have h1 : recordTail (f :: g :: gs) ++ '\n' :: rest =
        escapeChars f ++ '"' :: ',' :: '"' :: (recordTail (g :: gs) ++ '\n' :: rest) := by
      rw [recordTail_cons₂]
      simp
    rw [h1, parseCSV_escape, parseCSV_next_field, ih]
    simp

/-- Running the machine over a written sequence of (nonempty) records
consumes them all and appends them to the accumulated records. -/
theorem parseCSV_records (records : List (List (List Char)))
    (h : ∀ r ∈ records, r ≠ []) (rest : List Char)
    (rs : List (List (List Char))) :
    parseCSV (writeRecords records ++ rest) false [] [] rs =
      parseCSV rest false [] [] (rs ++ records) := by
  induction records generalizing rs with
  | nil => simp [writeRecords]
  | cons r rrs ih =>
    match r, h r (List.mem_cons_self r rrs) with
    | f :: fields, _ =>
      have h2 : writeRecords ((f :: fields) :: rrs) ++ rest =
          '"' :: (recordTail (f :: fields) ++ '\n' :: (writeRecords rrs ++ rest)) := by
        simp [writeRecords, writeRecord]
      rw [h2, parseCSV_open, parseCSV_record,
        ih (fun x hx => h x (List.mem_cons_of_mem _ hx))]
      simp

/-- CSV round trip at the record level: parsing back a written sequence of
(nonempty) records recovers exactly those records. -/
theorem parseRecords_writeRecords (records : List (List (List Char)))
    (h : ∀ r ∈ records, r ≠ []) :
    parseRecords (writeRecords records) = some records := by
  have h1 := parseCSV_records records h [] []
  rw [List.append_nil] at h1
  rw [parseRecords, h1, parseCSV_nil]
  simp

/-- The decimal rendering does not depend on the fuel, as long as there is
enough of it. -/
theorem natToCharsAux_fuel_irrel :
    ∀ (f1 f2 n : Nat), n < f1 → n < f2 → natToCharsAux f1 n = natToCharsAux f2 n := by
  intro f1
  induction f1 with
  | zero => intro f2 n h1 _; omega
  | succ f ih =>
    intro f2 n h1 h2
    cases f2 with
    | zero => omega
    | succ f2p =>
      by_cases h10 : n < 10
      · simp [natToCharsAux, h10]
      · have hd : n / 10 < n := Nat.div_lt_self (by omega) (by norm_num)
        simp only [natToCharsAux, if_neg h10]
        rw [ih f2p (n / 10) (by omega) (by omega)]

/-- Unfolding equation for `natToChars` without fuel. -/
theorem natToChars_unfold (n : Nat) :
    natToChars n =
      if n < 10 then [digitChar n]
      else natToChars (n / 10) ++ [digitChar (n % 10)] := by
  by_cases h10 : n < 10
  · simp [natToChars, natToCharsAux, h10]
  · have hd : n / 10 < n := Nat.div_lt_self (by omega) (by norm_num)
    simp only [natToChars, natToCharsAux, if_neg h10]
    rw [natToCharsAux_fuel_irrel n (n / 10 + 1) (n / 10) (by omega) (by omega)]
    simp only [natToCharsAux]

/-- A rendered number is never the empty string. -/
theorem natToChars_ne_nil (n : Nat) : natToChars n ≠ [] := by
  rw [natToChars_unfold]
  split <;> simp

/-- Digit characters decode to their digit values. -/
theorem charDigit_digitChar (d : Nat) (h : d < 10) :
    charDigit (digitChar d) = some d := by
  interval_cases d <;> decide

/-- Accumulating parse of a rendered number followed by anything. -/
theorem parseNatAux_natToChars (n : Nat) :
    ∀ (acc : Nat) (rest : List Char),
      parseNatAux (natToChars n ++ rest) acc =
        parseNatAux rest (acc * 10 ^ (natToChars n).length + n) := by
  induction n using Nat.strong_induction_on with
  | _ n ih =>
    intro acc rest
    by_cases h10 : n < 10
    · rw [natToChars_unfold, if_pos h10]
      simp [parseNatAux, charDigit_digitChar n h10]
    · have hd : n / 10 < n := Nat.div_lt_self (by omega) (by norm_num)
      rw [natToChars_unfold, if_neg h10, List.append_assoc, List.singleton_append,
        ih (n / 10) hd acc (digitChar (n % 10) :: rest)]
      have hm : n % 10 < 10 := Nat.mod_lt n (by norm_num)
      simp only [List.singleton_append, parseNatAux, charDigit_digitChar (n % 10) hm,
        List.length_append, List.length_cons, List.length_nil, Nat.zero_add]
      congr 1
      rw [pow_succ, ← mul_assoc]
      omega

/-- Round trip for unsigned-integer fields. -/
theorem parseNatChars_natToChars (n : Nat) : parseNatChars (natToChars n) = some n := by
  have h1 := parseNatAux_natToChars n 0 []
  rw [List.append_nil] at h1
  simp only [parseNatAux, zero_mul, zero_add] at h1
  obtain ⟨c, cs, hc⟩ := List.exists_cons_of_ne_nil (natToChars_ne_nil n)
  rw [hc] at h1
  rw [hc]
  simp only [parseNatChars]
  exact h1

/-- Round trip for boolean fields. -/
theorem parseBoolChars_boolChars (b : Bool) : parseBoolChars (boolChars b) = some b := by
  cases b <;> decide

/-- A bar-free string splits to itself alone. -/
theorem splitBar_no_bar (l : List Char) (hl : '|' ∉ l) : splitBar l = [l] := by
  induction l with
  | nil => rfl
  | cons c cs ih =>
    have hc : c ≠ '|' := fun h => hl (h ▸ List.mem_cons_self c cs)
    have hcs : '|' ∉ cs := fun h => hl (List.mem_cons_of_mem c h)
    simp [splitBar, hc, ih hcs]

/-- Splitting past a bar-free head piece. -/
theorem splitBar_append (l : List Char) (hl : '|' ∉ l) (rest : List Char) :
    splitBar (l ++ '|' :: rest) = l :: splitBar rest := by
  induction l with
  | nil => simp [splitBar]
  | cons c cs ih =>
    have hc : c ≠ '|' := fun h => hl (h ▸ List.mem_cons_self c cs)
    have hcs : '|' ∉ cs := fun h => hl (List.mem_cons_of_mem c h)
    simp [splitBar, hc, ih hcs]

/-- Splitting the bar-join of a nonempty list of bar-free pieces recovers
the pieces. -/
theorem splitBar_joinBar (ls : List (List Char)) (hne : ls ≠ [])
    (h2 : ∀ l ∈ ls, '|' ∉ l) : splitBar (joinBar ls) = ls := by
  induction ls with
  | nil => exact absurd rfl hne
  | cons l ls2 ih =>
    cases ls2 with
    | nil =>
      have hj : joinBar [l] = l := rfl
      rw [hj]
      exact splitBar_no_bar l (h2 l (List.mem_cons_self _ _))
    | cons l2 ls3 =>
      have hj : joinBar (l :: l2 :: ls3) = l ++ '|' :: joinBar (l2 :: ls3) := by
        simp [joinBar]
      rw [hj, splitBar_append l (h2 l (List.mem_cons_self _ _)),
        ih (by simp) (fun x hx => h2 x (List.mem_cons_of_mem l hx))]

/-- Labels round trip whenever the list is serializable (`labelsGood`). -/
theorem parseLabels_joinBar (ls : List (List Char)) (h : labelsGood ls) :
    parseLabels (joinBar ls) = ls := by
  obtain ⟨h1, h2⟩ := h
  cases ls with
  | nil => rfl
  | cons l ls2 =>
    have hsj := splitBar_joinBar (l :: ls2) (by simp) h2
    cases hj : joinBar (l :: ls2) with
    | nil =>
      rw [hj] at hsj
      simp only [splitBar] at hsj
      rw [← hsj] at h1
      exact absurd rfl h1
    | cons c cs =>
      have hp : parseLabels (c :: cs) = splitBar (c :: cs) := rfl
      rw [hp, ← hj, hsj]

/-- A chunk decodes from its own fields whenever its labels are
serializable. -/
theorem fieldsToChunk_chunkToFields (c : Chunk) (h : labelsGood c.labels) :
    fieldsToChunk (chunkToFields c) = some c := by
  simp only [chunkToFields, fieldsToChunk]
  rw [parseNatChars_natToChars, parseNatChars_natToChars, parseNatChars_natToChars,
    parseBoolChars_boolChars, parseLabels_joinBar c.labels h]

/-- A chunk record always has its eight fields. -/
theorem chunkToFields_ne_nil (c : Chunk) : chunkToFields c ≠ [] := by
  simp [chunkToFields]

/-- Decoding the fields of serializable chunks recovers the chunks. -/
theorem decodeRecords_chunkToFields (l : List Chunk)
    (h : ∀ c ∈ l, labelsGood c.labels) :
    decodeRecords (l.map chunkToFields) = some l := by
  induction l with
  | nil => rfl
  | cons c cs ih =>
    simp only [List.map_cons, decodeRecords,
      fieldsToChunk_chunkToFields c (h c (List.mem_cons_self _ _)),
      ih (fun x hx => h x (List.mem_cons_of_mem c hx))]

/-- Round trip of the full store serialization for serializable labels. -/
theorem loadChunks_writeAll (l : List Chunk) (h : ∀ c ∈ l, labelsGood c.labels) :
    loadChunks (writeAll l) = some l := by
  rw [loadChunks, writeAll, parseRecords_writeRecords _ (by
    intro r hr
    obtain ⟨c, _, hc⟩ := List.mem_map.mp hr
    rw [← hc]
    exact chunkToFields_ne_nil c)]
  exact decodeRecords_chunkToFields l h

/-- One undecodable record fails the whole decode. -/
theorem decodeRecords_none (recs : List (List (List Char)))
    (r : List (List Char)) (hr : r ∈ recs) (hn : fieldsToChunk r = none) :
    decodeRecords recs = none := by
  induction recs with
  | nil => cases hr
  | cons a as ih =>
    rcases List.mem_cons.mp hr with h | h
    · subst h
      simp [decodeRecords, hn]
    · cases ha : fieldsToChunk a <;> simp [decodeRecords, ha, ih h]

/-- Marking never changes the array length. -/
theorem markFrom_length (s lim : Nat) :
    ∀ (i : Nat) (arr : List Bool), (markFrom s lim i arr).length = arr.length := by
  intro i arr
  induction arr generalizing i with
  | nil => rfl
  | cons b rest ih => simp [markFrom, ih]

/-- Pointwise reading of the marking loop. -/
theorem markFrom_getD (s lim : Nat) :
    ∀ (arr : List Bool) (i j : Nat), j < arr.length →
      (markFrom s lim i arr).getD j false =
        (arr.getD j false || (decide (s ≤ i + j) && decide (i + j ≤ lim))) := by
  intro arr
  induction arr with
  | nil => intro i j h; simp at h
  | cons b rest ih =>
    intro i j h
    cases j with
    | zero => simp [markFrom]
    | succ j2 =>
      simp only [markFrom, List.getD_cons_succ]
      rw [ih (i + 1) j2 (by simpa using h)]
      have hik : i + 1 + j2 = i + (j2 + 1) := by omega
      rw [hik]

/-- Folding a marking pass over a chunk list never changes the length. -/
theorem foldMark_length (f g : Chunk → Nat) (chs : List Chunk) :
    ∀ arr : List Bool,
      (List.foldl (fun a c => markFrom (f c) (g c) 0 a) arr chs).length = arr.length := by
  induction chs with
  | nil => intro arr; rfl
  | cons c cs ih => intro arr; rw [List.foldl_cons, ih, markFrom_length]

/-- Pointwise reading of the whole marking fold: a position is set exactly
when the marking interval of some chunk contains it (or it was set before). -/
theorem foldMark_getD (f g : Chunk → Nat) (chs : List Chunk) :
    ∀ (arr : List Bool) (j : Nat), j < arr.length →
      (List.foldl (fun a c => markFrom (f c) (g c) 0 a) arr chs).getD j false =
        (arr.getD j false || chs.any (fun c => decide (f c ≤ j) && decide (j ≤ g c))) := by
  induction chs with
  | nil => intro arr j h; simp
  | cons c cs ih =>
    intro arr j h
    rw [List.foldl_cons, ih _ j (by rw [markFrom_length]; exact h),
      markFrom_getD _ _ _ _ j h]
    simp [Bool.or_assoc]

/-- A replicated-false array reads false everywhere. -/
theorem getD_replicate_false (n j : Nat) :
    (List.replicate n false).getD j false = false := by
  rw [List.getD_eq_getElem?_getD, List.getElem?_replicate]
  split <;> rfl

/-- Counting set positions of a boolean array as a count over its index
range. -/
theorem countP_eq_count_range (l : List Bool) :
    l.countP id = (List.range l.length).countP (fun j => l.getD j false) := by
  induction l with
  | nil => rfl
  | cons b xs ih =>
    rw [List.length_cons, List.range_succ_eq_map, List.countP_cons, List.countP_cons,
      List.countP_map]
    have hcongr :
        (List.range xs.length).countP ((fun j => (b :: xs).getD j false) ∘ Nat.succ) =
          (List.range xs.length).countP (fun j => xs.getD j false) := by
      apply List.countP_congr
      intro a _
      simp [Function.comp, List.getD_cons_succ]
    rw [hcongr, ← ih]
    simp

/-- The marked-line count of `calculate_chunking_percentage` equals the
size of the union of the marked ranges of the chunks: overlap is never counted
twice. -/
theorem coverage_countP (st : ChunkStorage) (path : List Char) (total : Nat) :
    List.countP id
        (List.foldl (markChunk total) (List.replicate total false)
          (st.chunks.filter (fun c => c.file_path == path))) =
      coveredCount st path total := by
  have hfun : List.foldl (markChunk total) (List.replicate total false)
      (st.chunks.filter (fun c => c.file_path == path)) =
      List.foldl
        (fun a c => markFrom c.start_line (min c.end_line (total - 1)) 0 a)
        (List.replicate total false)
        (st.chunks.filter (fun c => c.file_path == path)) := rfl
  rw [hfun, countP_eq_count_range,
    foldMark_length (fun c => c.start_line) (fun c => min c.end_line (total - 1)),
    List.length_replicate, coveredCount]
  apply List.countP_congr
  intro j hj
  rw [List.mem_range] at hj
  rw [foldMark_getD (fun c => c.start_line) (fun c => min c.end_line (total - 1)) _ _
    j (by rw [List.length_replicate]; exact hj)]
  rw [getD_replicate_false]
  simp [coveredB]

/-- Rust `calculate_chunking_percentage` computes the distinct covered-line count
over the total, times 100 (and 0 for an empty file: with no chunks for the
file the covered count is itself 0). -/
theorem coverage_eq (st : ChunkStorage) (path : List Char) (total : Nat) :
    st.calculate_chunking_percentage path total =
      if total = 0 then 0
      else ((coveredCount st path total : Rat) / (total : Rat)) * 100 := by
  unfold ChunkStorage.calculate_chunking_percentage
  by_cases h0 : total = 0
  · simp [h0]
  · rw [if_neg h0, if_neg h0]
    by_cases hemp : (st.chunks.filter (fun c => c.file_path == path)).isEmpty
    · rw [if_pos hemp]
      have hnil : st.chunks.filter (fun c => c.file_path == path) = [] :=
        List.isEmpty_iff.mp hemp
      have hcc : coveredCount st path total = 0 := by
        rw [coveredCount, hnil]
        simp [coveredB]
      rw [hcc]
      norm_num
    · rw [if_neg hemp, coverage_countP]

/-- Counting is monotone in the predicate. -/
theorem countP_le_countP {α : Type} (l : List α) (p q : α → Bool)
    (h : ∀ a ∈ l, p a = true → q a = true) : l.countP p ≤ l.countP q := by
  induction l with
  | nil => simp
  | cons a as ih =>
    rw [List.countP_cons, List.countP_cons]
    have h2 := ih (fun x hx => h x (List.mem_cons_of_mem a hx))
    by_cases hpa : p a = true
    · rw [if_pos hpa, if_pos (h a (List.mem_cons_self _ _) hpa)]
      omega
    · rw [if_neg hpa]
      split <;> omega

/-- A disjunction is covered by the first disjunct plus the part of the
second outside it. -/
theorem countP_or_le {α : Type} (l : List α) (p q : α → Bool) :
    l.countP (fun a => p a || q a) ≤
      l.countP p + l.countP (fun a => q a && !p a) := by
  induction l with
  | nil => simp
  | cons a as ih =>
    rw [List.countP_cons, List.countP_cons, List.countP_cons]
    cases hp : p a <;> cases hq : q a <;> simp [hp, hq] <;> omega

/-- Claim C4, as corrected: `calculate_chunking_percentage` treats the
stored bounds as the 0-indexed values they are declared to be — each chunk
marks exactly the indices `[start_line, min(end_line, total_lines-1)]`, not
`[start_line-1, min(end_line-1, total_lines-1)]` — and returns the count of
distinct marked lines over `total_lines`, times 100, with `0` when
`total_lines = 0` or the file has no chunks (then the covered count is
itself 0); a line under several chunks is counted once, since the result
counts the union of the marked ranges. -/
theorem coverage_marks_stored_bounds (st : ChunkStorage) (path : List Char)
    (total : Nat) :
    (st.calculate_chunking_percentage path total =
      if total = 0 then 0
      else ((coveredCount st path total : Rat) / (total : Rat)) * 100) ∧
    ∀ i : Nat,
      coveredB (st.chunks.filter (fun c => c.file_path == path)) total i = true ↔
        ∃ c ∈ st.chunks, c.file_path = path ∧
          c.start_line ≤ i ∧ i ≤ min c.end_line (total - 1) := by
  refine ⟨coverage_eq st path total, fun i => ?_⟩
  simp only [coveredB, List.any_eq_true, List.mem_filter, Bool.and_eq_true,
    decide_eq_true_eq, beq_iff_eq]
  tauto

/-- Claim C4's counterexample input: for the store holding one chunk with
stored bounds `(5,5)` of a 5-line file, the source marks nothing (the loop
`5..=min(5,4)` is empty) and reports `0`, while the claimed 1-indexed
reading `[start-1, min(end-1, total-1)]` marks line 4 and reports `20`. -/
theorem coverage_claimed_marking_cx :
    stC4.calculate_chunking_percentage ['f'] 5 = 0 ∧
    claimedChunkingPercentage stC4 ['f'] 5 = 20 ∧ (0 : Rat) ≠ 20 := by
  have h1 : List.countP id (List.foldl (markChunk 5) (List.replicate 5 false)
      (List.filter (fun c => c.file_path == ['f']) stC4.chunks)) = 0 := by decide
  have h2 : List.countP id (List.foldl
      (fun arr c => markFrom (c.start_line - 1) (min (c.end_line - 1) (5 - 1)) 0 arr)
      (List.replicate 5 false)
      (List.filter (fun c => c.file_path == ['f']) stC4.chunks)) = 1 := by decide
  have hne : (List.filter (fun c => c.file_path == ['f']) stC4.chunks).isEmpty = false := by
    decide
  refine ⟨?_, ?_, by norm_num⟩
  · unfold ChunkStorage.calculate_chunking_percentage
    norm_num [h1, hne]
  · unfold claimedChunkingPercentage
    norm_num [h2, hne]

/-- Claim C5: adding a chunk for a file never decreases the coverage
percentage of that file, and (in particular when the new chunk overlaps
existing ones) the increase is at most the number of previously uncovered
lines in the marked range of the new chunk, over `total_lines`, times 100. -/
theorem coverage_monotone_add (st : ChunkStorage) (path : List Char)
    (total : Nat) (c : Chunk) (hc : c.file_path = path) :
    st.calculate_chunking_percentage path total ≤
      (st.add_chunk c).calculate_chunking_percentage path total ∧
    ((∃ c2 ∈ st.chunks, c2.file_path = path ∧
        ¬(c.end_line < c2.start_line ∨ c.start_line > c2.end_line)) →
      (st.add_chunk c).calculate_chunking_percentage path total -
          st.calculate_chunking_percentage path total ≤
        ((newUncovered st path total c : Rat) / (total : Rat)) * 100) := by
  have hchunks : (st.add_chunk c).chunks = st.chunks ++ [c] := rfl
  have hfilter : (st.chunks ++ [c]).filter (fun x => x.file_path == path) =
      st.chunks.filter (fun x => x.file_path == path) ++ [c] := by
    rw [List.filter_append]
    simp [hc]
  have hcovB : ∀ i,
      coveredB ((st.add_chunk c).chunks.filter (fun x => x.file_path == path)) total i =
        (coveredB (st.chunks.filter (fun x => x.file_path == path)) total i ||
          (decide (c.start_line ≤ i) && decide (i ≤ min c.end_line (total - 1)))) := by
    intro i
    rw [hchunks, hfilter]
    simp [coveredB]
  have hcongr : coveredCount (st.add_chunk c) path total =
      (List.range total).countP (fun i =>
        coveredB (st.chunks.filter (fun x => x.file_path == path)) total i ||
          (decide (c.start_line ≤ i) && decide (i ≤ min c.end_line (total - 1)))) := by
    rw [coveredCount]
    exact List.countP_congr (fun i _ => by rw [hcovB i])
  have hcount1 : coveredCount st path total ≤ coveredCount (st.add_chunk c) path total := by
    rw [hcongr, coveredCount]
    exact countP_le_countP _ _ _ (fun i _ hi => by rw [hi, Bool.true_or])
  have hcount2 : coveredCount (st.add_chunk c) path total ≤
      coveredCount st path total + newUncovered st path total c := by
    rw [hcongr, coveredCount, newUncovered]
    exact countP_or_le _ _ _
  rw [coverage_eq, coverage_eq]
  by_cases h0 : total = 0
  · constructor
    · simp [h0]
    · intro _
      simp [h0]
  · rw [if_neg h0, if_neg h0]
    have ht : (0 : Rat) < (total : Rat) := by
      have : 0 < total := Nat.pos_of_ne_zero h0
      exact_mod_cast this
    constructor
    · refine mul_le_mul_of_nonneg_right ?_ (by norm_num)
      exact (div_le_div_iff_of_pos_right ht).mpr (by exact_mod_cast hcount1)
    · intro _
      rw [sub_le_iff_le_add]
      have hsum : ((newUncovered st path total c : Rat) / (total : Rat)) * 100 +
          ((coveredCount st path total : Rat) / (total : Rat)) * 100 =
          (((coveredCount st path total + newUncovered st path total c : Nat) : Rat) /
            (total : Rat)) * 100 := by
        push_cast
        ring
      rw [hsum]
      refine mul_le_mul_of_nonneg_right ?_ (by norm_num)
      exact (div_le_div_iff_of_pos_right ht).mpr (by exact_mod_cast hcount2)

/-- Witness for C5 at a concrete input: a 5-line file with chunk `(0,2)`
recorded, adding the overlapping chunk `(1,3)`. -/
theorem coverage_monotone_add_witness :
    (stC5.calculate_chunking_percentage ['f'] 5 ≤
      (stC5.add_chunk cAdd5).calculate_chunking_percentage ['f'] 5) ∧
    ((stC5.add_chunk cAdd5).calculate_chunking_percentage ['f'] 5 -
        stC5.calculate_chunking_percentage ['f'] 5 ≤
      ((newUncovered stC5 ['f'] 5 cAdd5 : Rat) / (5 : Rat)) * 100) :=
  ⟨(coverage_monotone_add stC5 ['f'] 5 cAdd5 (by decide)).1,
   (coverage_monotone_add stC5 ['f'] 5 cAdd5 (by decide)).2 (by decide)⟩

/-- Claim C1, as corrected: writing a chunk with the writer of the store and
reading it back with its reader recovers the chunk in every field —
content byte-for-byte, including newlines, quotes and commas — for every
chunk whose labels survive the bar-join serialization (`labelsGood`: no
label contains `|` and the list is not exactly one empty label).  Without
that restriction the claim fails (see the counterexample). -/
theorem chunk_csv_roundtrip (c : Chunk) (h : labelsGood c.labels) :
    loadChunks (writeAll [c]) = some [c] :=
  loadChunks_writeAll [c] (by
    intro x hx
    rw [List.mem_singleton] at hx
    rw [hx]
    exact h)

/-- Witness for C1: a chunk whose content holds a newline, a quote and a
comma, with two labels, round-trips exactly. -/
theorem chunk_csv_roundtrip_witness : loadChunks (writeAll [cRound]) = some [cRound] :=
  chunk_csv_roundtrip cRound (by decide)

/-- Counterexample to C1 as stated: the chunk whose labels list is exactly
one empty label reads back with no labels at all, so the round trip does
not return a chunk equal in every field. -/
theorem chunk_csv_roundtrip_cx :
    loadChunks (writeAll [cBad1]) = some [cBad1RT] ∧ cBad1RT ≠ cBad1 := by
  constructor
  · decide
  · decide

/-- Claim C6, as corrected: after every successful `add_chunk` the backing
file holds exactly the serialization of the full in-memory sequence (the
whole file is rewritten), and the in-memory sequence is the old one plus
the added chunk.  Loading the file back recovers exactly the in-memory
sequence provided the labels of every chunk survive serialization; without that
proviso the load-back clause fails (see the counterexample). -/
theorem disk_matches_memory_after_add (st : ChunkStorage) (c : Chunk) :
    (st.add_chunk c).disk = writeAll ((st.add_chunk c).chunks) ∧
    (st.add_chunk c).chunks = st.chunks ++ [c] ∧
    ((∀ x ∈ st.chunks ++ [c], labelsGood x.labels) →
      loadChunks ((st.add_chunk c).disk) = some (st.chunks ++ [c])) := by
  refine ⟨rfl, rfl, fun h => ?_⟩
  exact loadChunks_writeAll (st.chunks ++ [c]) h

/-- Witness for C6: adding a well-behaved chunk to the empty store leaves a
file that loads back to exactly the one-chunk sequence. -/
theorem disk_matches_memory_after_add_witness :
    loadChunks ((stEmpty.add_chunk cWit6).disk) = some (stEmpty.chunks ++ [cWit6]) :=
  (disk_matches_memory_after_add stEmpty cWit6).2.2 (by decide)

/-- Counterexample to C6 as stated: after adding a chunk with a bar inside
a label, the file loads back to a sequence that differs from the in-memory
one (the label has been split at the bar). -/
theorem disk_matches_memory_after_add_cx :
    (stEmpty.add_chunk cBad6).chunks = [cBad6] ∧
    loadChunks ((stEmpty.add_chunk cBad6).disk) = some [cBad6RT] ∧
    cBad6RT ≠ cBad6 := by
  refine ⟨by decide, by decide, by decide⟩

/-- Claim C7: opening the store on an existing backing file is
all-or-nothing — if the record layer rejects the file, or any single parsed
record fails to decode into a chunk, then no store is produced at all (no
prefix of good records is kept); and when a store is produced, every record
of the file decoded. -/
theorem load_all_or_nothing (p : List Char) (contents : List Char) :
    (parseRecords contents = none → ChunkStorage.new p true contents = none) ∧
    (∀ recs, parseRecords contents = some recs →
      (∃ r ∈ recs, fieldsToChunk r = none) → ChunkStorage.new p true contents = none) ∧
    (∀ σ, ChunkStorage.new p true contents = some σ →
      ∃ recs, parseRecords contents = some recs ∧ decodeRecords recs = some σ.chunks) := by
  refine ⟨?_, ?_, ?_⟩
  · intro h
    simp [ChunkStorage.new, loadChunks, h]
  · rintro recs hrecs ⟨r, hr, hn⟩
    simp [ChunkStorage.new, loadChunks, hrecs, decodeRecords_none recs r hr hn]
  · intro σ hσ
    have hσ2 : (loadChunks contents).map (fun l => (⟨p, l, contents⟩ : ChunkStorage)) =
        some σ := hσ
    cases hl : loadChunks contents with
    | none => rw [hl] at hσ2; simp at hσ2
    | some l =>
      rw [hl] at hσ2
      have hσ3 : (⟨p, l, contents⟩ : ChunkStorage) = σ := by simpa using hσ2
      cases hp : parseRecords contents with
      | none => rw [loadChunks, hp] at hl; simp at hl
      | some recs =>
        refine ⟨recs, rfl, ?_⟩
        rw [loadChunks, hp] at hl
        have hl2 : decodeRecords recs = some l := hl
        rw [hl2, ← hσ3]

/-- Witness for C7: a file holding one clean record followed by a record
with a non-numeric `start_line` produces no store, even though a prefix of
its records parses. -/
theorem load_all_or_nothing_witness : ChunkStorage.new ['p'] true c7contents = none :=
  (load_all_or_nothing ['p'] c7contents).2.1
    [chunkToFields c7good, badRecordFields] (by decide) (by decide)

/-- Claim C2's failing input, evaluated: in `vC2` the recorded range `(2,2)`
lies entirely after the edited span `(0,1)`, and replacing those two lines
with zero lines (`delta = -2`) should shift it to `(0,0)`; instead the
shifted range collides with the `(0,0)` removal sentinel and is silently
dropped, leaving the index empty. -/
theorem update_shift_to_sentinel_dropped :
    (Viewer.update_selected_content vC2 []).map (fun r => (r.1, r.2.chunked_ranges)) =
      some (true, []) := by decide

/-- Claim C3's failing input, evaluated: in `vC3` the recorded range `(0,0)`
lies entirely before the edited span `(2,2)` and must stay unchanged when
one line is replaced by two (`delta = +1`); instead it is removed by the
`retain != (0,0)` sentinel sweep, leaving only the shifted `(6,8)`. -/
theorem update_drops_preexisting_zero_range :
    (Viewer.update_selected_content vC3 [['y'], ['z']]).map
        (fun r => (r.1, r.2.chunked_ranges)) =
      some (true, [(6, 8)]) := by decide

/-- Claim C8: `save_selection_as_chunk` fails with the no-selection error
exactly on states with no active selection, fails with the invalid-range
error whenever a selection bound reaches the length of the working content, and
on every state with an open file and an in-bounds selection it succeeds —
returning the generated chunk path and appending the range — regardless of
`chunked_ranges`, since the result of the overlap check is discarded. -/
theorem save_selection_error_contract (v : Viewer) (cd rd : List Char) :
    (Viewer.selection_range v = none →
      Viewer.save_selection_as_chunk v cd rd = .error .noSelection) ∧
    (∀ s e, Viewer.selection_range v = some (s, e) →
      s ≥ v.content.length ∨ e ≥ v.content.length →
      Viewer.save_selection_as_chunk v cd rd = .error .invalidRange) ∧
    (∀ s e fp, Viewer.selection_range v = some (s, e) → v.file_path = some fp →
      s < v.content.length → e < v.content.length →
      Viewer.save_selection_as_chunk v cd rd =
        .ok (pathJoin cd (generate_chunk_filename fp rd s e),
          { v with chunked_ranges := v.chunked_ranges ++ [(s, e)] })) := by
  refine ⟨fun h => ?_, fun s e h1 h2 => ?_, fun s e fp h1 hfp h2 h3 => ?_⟩
  · unfold Viewer.save_selection_as_chunk
    rw [h]
  · unfold Viewer.save_selection_as_chunk
    rw [h1]
    have step : (if (s, e).1 ≥ v.content.length ∨ (s, e).2 ≥ v.content.length then
        (Except.error SaveError.invalidRange : Except SaveError (List Char × Viewer))
      else
        match v.file_path with
        | none => .error .noFileOpened
        | some fp =>
          .ok (pathJoin cd (generate_chunk_filename fp rd (s, e).1 (s, e).2),
            { v with chunked_ranges := v.chunked_ranges ++ [(s, e)] })) =
        Except.error SaveError.invalidRange := by
      rw [if_pos h2]
    exact step
  · unfold Viewer.save_selection_as_chunk
    rw [h1]
    have step : (if (s, e).1 ≥ v.content.length ∨ (s, e).2 ≥ v.content.length then
        (Except.error SaveError.invalidRange : Except SaveError (List Char × Viewer))
      else
        match v.file_path with
        | none => .error .noFileOpened
        | some fp =>
          .ok (pathJoin cd (generate_chunk_filename fp rd (s, e).1 (s, e).2),
            { v with chunked_ranges := v.chunked_ranges ++ [(s, e)] })) =
        .ok (pathJoin cd (generate_chunk_filename fp rd s e),
          { v with chunked_ranges := v.chunked_ranges ++ [(s, e)] }) := by
      rw [if_neg (by omega : ¬((s, e).1 ≥ v.content.length ∨ (s, e).2 ≥ v.content.length)),
        hfp]
    exact step

/-- Witness for C8 at `vC8`: the open file, the in-bounds selection `(0,1)`
and a recorded range overlapping that entire selection — the save still
succeeds. -/
theorem save_selection_error_contract_witness :
    Viewer.save_selection_as_chunk vC8 ['d'] ['r'] =
      .ok (pathJoin ['d'] (generate_chunk_filename ['f'] ['r'] 0 1),
        { vC8 with chunked_ranges := vC8.chunked_ranges ++ [(0, 1)] }) :=
  (save_selection_error_contract vC8 ['d'] ['r']).2.2 0 1 ['f']
    (by decide) (by decide) (by decide) (by decide)

/-- Claim C9, as corrected: on every state whose working content is
nonempty, toggling selection mode activates it with the anchor at the
cursor when it was inactive, and deactivates it clearing the anchor when it
was active.  On empty content the source guards the whole body and the
toggle is a no-op (see the counterexample), so the part of the claim that covers empty content fails. -/
theorem toggle_selection_contract (v : Viewer) (h : v.content ≠ []) :
    (v.selection_mode = false →
      Viewer.toggle_selection_mode v =
        { v with selection_mode := true, selection_start := some v.cursor_position }) ∧
    (v.selection_mode = true →
      Viewer.toggle_selection_mode v =
        { v with selection_mode := false, selection_start := none }) := by
  have hemp : v.content.isEmpty = false := by
    cases hc : v.content with
    | nil => exact absurd hc h
    | cons a as => rfl
  constructor <;> intro hm <;> simp [Viewer.toggle_selection_mode, hemp, hm]

/-- Witness for C9 on a one-line file with selection mode off. -/
theorem toggle_selection_contract_witness :
    Viewer.toggle_selection_mode vC9 =
      { vC9 with selection_mode := true, selection_start := some vC9.cursor_position } :=
  (toggle_selection_contract vC9 (by decide)).1 (by decide)

/-- Counterexample to C9 as stated: on the empty document the toggle is a
no-op — selection mode stays off instead of activating. -/
theorem toggle_empty_noop_cx :
    (Viewer.new).content = [] ∧ (Viewer.new).selection_mode = false ∧
    Viewer.toggle_selection_mode Viewer.new = Viewer.new := by decide

/-- Claim C10: in every viewer state reachable through the public
operations, selection mode is on exactly when the selection anchor is set;
consequently `selection_range` is `none` exactly when selection mode is
off. -/
theorem selection_mode_iff_anchor (v : Viewer) (h : ReachableViewer v) :
    (v.selection_mode = true ↔ v.selection_start.isSome = true) ∧
    (Viewer.selection_range v = none ↔ v.selection_mode = false) := by
  have main : ∀ w : Viewer, ReachableViewer w →
      (w.selection_mode = true ↔ w.selection_start.isSome = true) := by
    intro w hw
    induction hw with
    | new => simp [Viewer.new]
    | open_file v p lines hv ih => simp [Viewer.open_file]
    | toggle v hv ih =>
      by_cases hemp : v.content.isEmpty
      · simpa [Viewer.toggle_selection_mode, hemp] using ih
      · have hemp2 : v.content.isEmpty = false := by simpa using hemp
        by_cases hm : v.selection_mode <;>
          simp [Viewer.toggle_selection_mode, hemp2, hm]
    | clear v hv ih => simp [Viewer.clear_selection]
    | cursor_up v hv ih => simpa [Viewer.cursor_up] using ih
    | cursor_down v hv ih =>
      unfold Viewer.cursor_down
      split
      · exact ih
      · simpa using ih
    | scroll_up v hv ih => simpa [Viewer.scroll_up] using ih
    | scroll_down v hv ih =>
      unfold Viewer.scroll_down
      split
      · exact ih
      · simpa using ih
    | page_up v n hv ih => simpa [Viewer.scroll_page_up] using ih
    | page_down v n hv ih =>
      unfold Viewer.scroll_page_down
      split
      · exact ih
      · simpa using ih
    | to_top v hv ih => simpa [Viewer.scroll_to_top] using ih
    | to_bottom v hv ih =>
      unfold Viewer.scroll_to_bottom
      split
      · exact ih
      · simpa using ih
    | to_position v n hv ih =>
      unfold Viewer.scroll_to_position
      split
      · exact ih
      · simpa using ih
    | save v cd rd pth v2 hv heq ih =>
      unfold Viewer.save_selection_as_chunk at heq
      cases hsel : Viewer.selection_range v with
      | none => rw [hsel] at heq; simp at heq
      | some r =>
        rw [hsel] at heq
        have heq2 : (if r.1 ≥ v.content.length ∨ r.2 ≥ v.content.length then
            (Except.error SaveError.invalidRange : Except SaveError (List Char × Viewer))
          else
            match v.file_path with
            | none => .error .noFileOpened
            | some fp =>
              .ok (pathJoin cd (generate_chunk_filename fp rd r.1 r.2),
                { v with chunked_ranges := v.chunked_ranges ++ [r] })) =
            Except.ok (pth, v2) := heq
        by_cases hb : r.1 ≥ v.content.length ∨ r.2 ≥ v.content.length
        · rw [if_pos hb] at heq2; simp at heq2
        · rw [if_neg hb] at heq2
          cases hfp : v.file_path with
          | none => rw [hfp] at heq2; simp at heq2
          | some fp =>
            rw [hfp] at heq2
            simp only [Except.ok.injEq, Prod.mk.injEq] at heq2
            rw [← heq2.2]
            simpa using ih
    | update v ed b v2 hv heq ih =>
      unfold Viewer.update_selected_content at heq
      cases hsel : Viewer.selection_range v with
      | none =>
        rw [hsel] at heq
        have heq2 : some (false, v) = some (b, v2) := heq
        simp only [Option.some.injEq, Prod.mk.injEq] at heq2
        rw [← heq2.2]
        exact ih
      | some r =>
        rw [hsel] at heq
        by_cases hb : r.1 ≥ v.content.length ∨ r.2 ≥ v.content.length
        · have heq2 : some (false, v) = some (b, v2) := by
            rw [← heq]
            exact (if_pos hb).symm
          simp only [Option.some.injEq, Prod.mk.injEq] at heq2
          rw [← heq2.2]
          exact ih
        · have heq2 : (if r.2 ≥ v.original_content.length then none
            else some (true,
              { v with
                content := v.content.take r.1 ++ ed ++ v.content.drop (r.2 + 1)
                chunked_ranges :=
                  if r.2 - r.1 + 1 ≠ ed.length then
                    (v.chunked_ranges.map (fun cr =>
                      if cr.1 > r.2 then
                        (((cr.1 : Int) + ((ed.length : Int) - ((r.2 - r.1 + 1 : Nat) : Int))).toNat,
                         ((cr.2 : Int) + ((ed.length : Int) - ((r.2 - r.1 + 1 : Nat) : Int))).toNat)
                      else if cr.2 ≥ r.1 then (0, 0)
                      else cr)).filter (fun cr => decide (cr ≠ (0, 0)))
                  else v.chunked_ranges
                has_edited_content :=
                  decide (((v.original_content.drop r.1).take (r.2 + 1 - r.1)).length ≠ ed.length) ||
                    (((v.original_content.drop r.1).take (r.2 + 1 - r.1)).zip ed).any
                      (fun p2 => decide (p2.1 ≠ p2.2))
                cursor_position :=
                  if v.cursor_position ≥
                      (v.content.take r.1 ++ ed ++ v.content.drop (r.2 + 1)).length then
                    (v.content.take r.1 ++ ed ++ v.content.drop (r.2 + 1)).length - 1
                  else v.cursor_position }) : Option (Bool × Viewer)) = some (b, v2) := by
            rw [← heq]
            exact (if_neg hb).symm
          by_cases ho : r.2 ≥ v.original_content.length
          · rw [if_pos ho] at heq2; simp at heq2
          · rw [if_neg ho] at heq2
            simp only [Option.some.injEq, Prod.mk.injEq] at heq2
            rw [← heq2.2]
            simpa using ih
    | load_ranges v ex ents rd hv ih =>
      cases hfp : v.file_path with
      | none =>
        have hred : Viewer.load_chunked_ranges v ex ents rd = v := by
          unfold Viewer.load_chunked_ranges
          rw [hfp]
        rw [hred]
        exact ih
      | some fp =>
        have hred : Viewer.load_chunked_ranges v ex ents rd =
            (if !ex then { v with chunked_ranges := [] }
             else
               { v with
                 chunked_ranges := ents.filterMap (fun name =>
                   if isTxtName name then
                     parseRangeFromName (sanitizePath (relativeTo fp rd)) name
                   else none) }) := by
          unfold Viewer.load_chunked_ranges
          rw [hfp]
        rw [hred]
        split
        · simpa using ih
        · simpa using ih
  refine ⟨main v h, ?_⟩
  have hm := main v h
  rcases hss : v.selection_start with _ | a
  · have h1 : Viewer.selection_range v = none := by simp [Viewer.selection_range, hss]
    have h2 : v.selection_mode = false := by
      cases hmode : v.selection_mode
      · rfl
      · exact absurd (hm.mp hmode) (by simp [hss])
    simp [h1, h2]
  · have hmode : v.selection_mode = true := hm.mpr (by simp [hss])
    rw [hmode]
    simp [Viewer.selection_range, hss]

/-- Witness for C10 at the initial state. -/
theorem selection_mode_iff_anchor_witness :
    ((Viewer.new).selection_mode = true ↔ (Viewer.new).selection_start.isSome = true) ∧
    (Viewer.selection_range Viewer.new = none ↔ (Viewer.new).selection_mode = false) :=
  selection_mode_iff_anchor Viewer.new ReachableViewer.new
